import Mathlib

set_option maxRecDepth 100000

/-!
Verification of the quote-api repository (src/main.go): a single HTTP handler
that picks a pseudo-random entry of a fixed string list and writes it as a
JSON body, plus the startup sequence of main. The Go code is shallowly
embedded below; math/rand internals that the handler calls (Seed, Intn,
Int31n, Int63n of the Go standard library, as of the go 1.22 toolchain the
repository pins) are embedded from their sources where claims depend on them.
Randomness is modeled by passing the stream of raw generator outputs as an
explicit argument.
-/

namespace QuoteApi

/-! ## JSON yardstick

A reference decoder for the single response shape the spec requires: a JSON
object with exactly one key, quote, whose value is a string, with standard
JSON string-escaping. This is the spec-side definition used to judge the
bodies the program emits; it is deliberately independent of the program's
own formatting code. Lone and paired UTF-16 surrogate escapes are rejected
(stricter than RFC 8259 syntax, which never matters for the bodies judged
here: none contains a backslash escape).
-/

/-- True for the ASCII control characters, which JSON forbids unescaped
inside string literals. -/
def isCtrl (c : Char) : Bool := decide (c.toNat < 32)

/-- Value of one hexadecimal digit, if the character is one. -/
def hexDigit (c : Char) : Option Nat :=
  if 48 ≤ c.toNat ∧ c.toNat ≤ 57 then some (c.toNat - 48)
  else if 97 ≤ c.toNat ∧ c.toNat ≤ 102 then some (c.toNat - 87)
  else if 65 ≤ c.toNat ∧ c.toNat ≤ 70 then some (c.toNat - 55)
  else none

/-- Decoding of a single-character JSON escape (the character after the
backslash). -/
def escChar (e : Char) : Option Char :=
  if e = '"' then some '"'
  else if e = '\\' then some '\\'
  else if e = '/' then some '/'
  else if e = 'b' then some (Char.ofNat 8)
  else if e = 'f' then some (Char.ofNat 12)
  else if e = 'n' then some (Char.ofNat 10)
  else if e = 'r' then some (Char.ofNat 13)
  else if e = 't' then some (Char.ofNat 9)
  else none

/-- Decoder for the body of a JSON string literal, starting after the opening
double quote: returns the decoded characters and the input remaining after
the closing double quote. Unescaped control characters are rejected, as are
malformed escapes. -/
def parseJsonStringBody : List Char → Option (List Char × List Char)
  | [] => none
  | c :: rest =>
    if c = '"' then some ([], rest)
    else if c = '\\' then
      match rest with
      | 'u' :: h1 :: h2 :: h3 :: h4 :: rest2 =>
        match hexDigit h1, hexDigit h2, hexDigit h3, hexDigit h4 with
        | some a, some b, some d, some e =>
          let n := ((a * 16 + b) * 16 + d) * 16 + e
          if 0xD800 ≤ n ∧ n < 0xE000 then none
          else
            match parseJsonStringBody rest2 with
            | some (cs, r) => some (Char.ofNat n :: cs, r)
            | none => none
        | _, _, _, _ => none
      | e :: rest2 =>
        match escChar e with
        | some d =>
          match parseJsonStringBody rest2 with
          | some (cs, r) => some (d :: cs, r)
          | none => none
        | none => none
      | [] => none
    else if isCtrl c then none
    else
      match parseJsonStringBody rest with
      | some (cs, r) => some (c :: cs, r)
      | none => none

/-- Insignificant JSON whitespace skipper. -/
def skipWs : List Char → List Char
  | [] => []
  | c :: rest =>
    if c = ' ' ∨ c = '\t' ∨ c = '\n' ∨ c = '\r' then skipWs rest else c :: rest

/-- Decoder for the full required response shape: a JSON object with exactly
one member, key quote, string value; returns the decoded value. Any other
document is rejected. -/
def parseQuoteObj (s : String) : Option String :=
  match skipWs s.toList with
  | '\x7b' :: rest0 =>
    match skipWs rest0 with
    | '"' :: rest1 =>
      match parseJsonStringBody rest1 with
      | some (key, rest2) =>
        if key = ['q', 'u', 'o', 't', 'e'] then
          match skipWs rest2 with
          | ':' :: rest3 =>
            match skipWs rest3 with
            | '"' :: rest4 =>
              match parseJsonStringBody rest4 with
              | some (val, rest5) =>
                match skipWs rest5 with
                | '\x7d' :: rest6 =>
                  if skipWs rest6 = [] then some (String.mk val) else none
                | _ => none
              | none => none
            | _ => none
          | _ => none
        else none
      | none => none
    | _ => none
  | _ => none

/-- True when a string contains no double quote, no backslash and no control
character, so that splicing it verbatim between double quotes yields a
well-formed JSON string literal denoting the same text. -/
def jsonSafeChar (c : Char) : Bool := c ≠ '"' && c ≠ '\\' && !isCtrl c

/-- All characters of the string are jsonSafeChar. -/
def jsonSafe (s : String) : Bool := s.toList.all jsonSafeChar

/-! ## Data model of the HTTP layer -/

/-- An inbound HTTP request as the handler sees it (net/http gives it the
method, URL path, headers and body; the handler reads none of them). -/
structure Request where
  method : String
  path : String
  headers : List (String × String)
  reqBody : String
deriving DecidableEq

/-- The observable response: the Content-Type header the handler sets and the
bytes it writes to its ResponseWriter. -/
structure Response where
  contentType : String
  body : String
deriving DecidableEq

/-- A request value used to instantiate universally quantified theorems. -/
def sampleRequest : Request := ⟨"GET", "/", [], ""⟩

/-! ## math/rand internals used by the handler

The handler calls the package-level rand.Seed and rand.Intn. Intn with
argument n dispatches to Int31n for 0 < n ≤ 2^31 - 1 and to Int63n above,
and panics for n ≤ 0. Int31n rejection-samples the raw 31-bit generator
outputs: a power-of-two n is masked directly, otherwise outputs above
2^31 - 1 - 2^31 % n are discarded and the first accepted output is reduced
mod n. The raw outputs are modeled as an explicit list of naturals. -/

/-- True when n has at most one bit set, the power-of-two test of Int31n and
Int63n, written there as n and n-1 equals 0. -/
def isPow2Mask (n : Nat) : Bool := n &&& (n - 1) == 0

/-- The acceptance threshold of Int31n for a non-power-of-two n. -/
def int31nMaxAcc (n : Nat) : Nat := 2 ^ 31 - 1 - 2 ^ 31 % n

/-- Whether Int31n keeps a raw generator output v (the rejection loop exits). -/
def int31nAccept (n v : Nat) : Bool :=
  if isPow2Mask n then true else decide (v ≤ int31nMaxAcc n)

/-- The value Int31n derives from an accepted raw output v. -/
def int31nVal (n v : Nat) : Nat :=
  if isPow2Mask n then v &&& (n - 1) else v % n

/-- Int31n over the stream of raw Int31 outputs: the first accepted output,
mapped; none models a stream too short for the rejection loop to exit. -/
def int31n (n : Nat) (vs : List Nat) : Option Nat :=
  (vs.find? (int31nAccept n)).map (int31nVal n)

/-- The acceptance threshold of Int63n for a non-power-of-two n. -/
def int63nMaxAcc (n : Nat) : Nat := 2 ^ 63 - 1 - 2 ^ 63 % n

/-- Whether Int63n keeps a raw generator output v. -/
def int63nAccept (n v : Nat) : Bool :=
  if isPow2Mask n then true else decide (v ≤ int63nMaxAcc n)

/-- The value Int63n derives from an accepted raw output v. -/
def int63nVal (n v : Nat) : Nat :=
  if isPow2Mask n then v &&& (n - 1) else v % n

/-- Int63n over the stream of raw Int63 outputs. -/
def int63n (n : Nat) (vs : List Nat) : Option Nat :=
  (vs.find? (int63nAccept n)).map (int63nVal n)

/-- rand.Intn: none models the panic on n ≤ 0 (n is a Nat here because it is
only ever applied to a Go slice length, which is non-negative); otherwise
dispatch on the size of n exactly as the Go source does. -/
def intn (n : Nat) (vs : List Nat) : Option Nat :=
  if n = 0 then none
  else if n ≤ 2 ^ 31 - 1 then int31n n vs
  else int63n n vs

/-! ## The quote handler and main -/

/-- The slice literal built in the body of quoteHandler, lifted to a
top-level definition: five fixed strings. -/
def quotes : List String :=
  ["The only way to do great work is to love what you do. - Steve Jobs",
   "The future belongs to those who believe in the beauty of their dreams. - Eleanor Roosevelt",
   "It does not matter how slowly you go as long as you do not stop. - Confucius",
   "Success is not final, failure is not fatal: it is the courage to continue that counts. - Winston Churchill",
   "Believe you can and you\x27re halfway there. - Theodore Roosevelt"]

/-- The body written by fmt.Fprintf with the format string consisting of an
open brace, a quoted quote key, a colon, a space, the argument spliced
verbatim between double quotes (the %s verb applies no escaping), and a
closing brace. -/
def fmtBody (q : String) : String := "\x7b\"quote\": \"" ++ q ++ "\"\x7d"

/-- The body of quoteHandler with the catalog literal abstracted as a
parameter, used to state the claims that quantify over catalog contents:
draw an index with rand.Intn on the catalog length, index the catalog, set
the Content-Type header and write the formatted body. none models a panic
(rand.Intn on a non-positive bound, or an out-of-range index). now is the
time.Now().UnixNano() value passed to rand.Seed; vs is the stream of raw
generator outputs following that reseed. -/
def quoteHandlerCore (catalog : List String) (now : Int) (vs : List Nat) :
    Option Response :=
  match intn catalog.length vs with
  | none => none
  | some i =>
    match catalog[i]? with
    | none => none
    | some q => some ⟨"application/json", fmtBody q⟩

/-- quoteHandler of src/main.go: the core at the literal catalog. The request
argument is received, as in the Go signature, and never read. -/
def quoteHandler (req : Request) (now : Int) (vs : List Nat) : Option Response :=
  quoteHandlerCore quotes now vs

/-- One operation on the shared package-level generator. -/
inductive RandOp where
  | seedOp : Int → RandOp
  | intnDraw : Nat → RandOp
deriving DecidableEq

/-- The sequence of operations an invocation of quoteHandler performs on the
shared generator, in source order: rand.Seed with the current clock value,
then one rand.Intn draw bounded by the catalog length. -/
def quoteHandlerRandOps (req : Request) (now : Int) : List RandOp :=
  [RandOp.seedOp now, RandOp.intnDraw quotes.length]

/-- One step of the startup sequence of main. -/
inductive StartupStep where
  | registerHandler : String → StartupStep
  | printLine : String → StartupStep
  | listenAndServe : Nat → StartupStep
deriving DecidableEq

/-- The startup sequence of main: register quoteHandler on the root pattern,
print the banner, listen on port 8080. No step seeds the generator and no
step inspects or validates a catalog. -/
def mainStartup : List StartupStep :=
  [StartupStep.registerHandler "/",
   StartupStep.printLine "Starting Quote API server on port 8080...",
   StartupStep.listenAndServe 8080]

/-- The startup sequence as a function of the catalog configuration: constant
in its argument, because main never reads the catalog (the literal lives
inside the handler body and is only evaluated per request). -/
def mainStartupOf (catalog : List String) : List StartupStep := mainStartup

/-- The catalog value an invocation of the handler constructs and reads: the
same literal on every call, for every request and clock value. -/
def catalogOf (req : Request) (now : Int) : List String := quotes

/-! ## Concurrency model

net/http dispatches each inbound request on its own goroutine, so handler
invocations interleave. The shared resources are the package-level generator
and nothing else: each invocation writes to its own ResponseWriter. Once
rand.Seed has been called, the package-level generator is a lockedSource
(math/rand of the pinned toolchain), whose Seed and Int31 methods each take
a mutex, so each single generator operation is atomic; an execution is an
arbitrary interleaving of these atomic operations. The generator is
abstracted by its seed and its position in the raw output stream; the
function giving the raw output at each position after a seed is a parameter
of the semantics. -/

/-- State of the shared generator: last seed and position in its stream. -/
structure GenState where
  seedVal : Int
  pos : Nat
deriving DecidableEq

/-- Phase of one in-flight handler invocation: about to call rand.Seed;
seeded and looping in Int31n until a raw output is accepted; or finished,
having written its complete body to its own ResponseWriter. -/
inductive ReqPhase where
  | start : ReqPhase
  | drawing : ReqPhase
  | finished : String → ReqPhase
deriving DecidableEq

/-- Global state of a concurrent execution: the shared generator and, per
request, its clock value and phase. -/
structure ConcState where
  gen : GenState
  procs : List (Int × ReqPhase)
deriving DecidableEq

/-- One atomic step of request i (a no-op for an index that is out of range
or already finished): rand.Seed resets the shared generator to that
request's clock value; one Int31 draw advances the shared generator and, if
accepted by Int31n's rejection test, completes the invocation, writing the
formatted body for the selected catalog entry to that request's own buffer. -/
def concStep (g : Int → Nat → Nat) (s : ConcState) (i : Nat) : ConcState :=
  match s.procs[i]? with
  | none => s
  | some (t, ReqPhase.start) => ⟨⟨t, 0⟩, s.procs.set i (t, ReqPhase.drawing)⟩
  | some (t, ReqPhase.drawing) =>
    let v := g s.gen.seedVal s.gen.pos
    let gen1 : GenState := ⟨s.gen.seedVal, s.gen.pos + 1⟩
    if int31nAccept quotes.length v then
      ⟨gen1, s.procs.set i
        (t, ReqPhase.finished (fmtBody (quotes.getD (int31nVal quotes.length v) "")))⟩
    else ⟨gen1, s.procs⟩
  | some (_, ReqPhase.finished _) => s

/-- Run a schedule: the list of request indices in the order their atomic
steps are interleaved. -/
def concRun (g : Int → Nat → Nat) (s : ConcState) : List Nat → ConcState
  | [] => s
  | i :: sched => concRun g (concStep g s i) sched

/-- Initial state for a batch of simultaneous requests with the given clock
values: generator in some arbitrary fixed state, every request ready to run. -/
def concInit (times : List Int) : ConcState :=
  ⟨⟨0, 0⟩, times.map (fun t => (t, ReqPhase.start))⟩

/-! ## Helper lemmas -/

/-- Whatever raw output Int31n maps, the result is below the bound. -/
theorem int31nVal_lt (n v : Nat) (hn : 0 < n) : int31nVal n v < n := by
  unfold int31nVal
  split
  · exact Nat.lt_of_le_of_lt Nat.and_le_right (by omega)
  · exact Nat.mod_lt v hn

/-- Whatever raw output Int63n maps, the result is below the bound. -/
theorem int63nVal_lt (n v : Nat) (hn : 0 < n) : int63nVal n v < n := by
  unfold int63nVal
  split
  · exact Nat.lt_of_le_of_lt Nat.and_le_right (by omega)
  · exact Nat.mod_lt v hn

/-- Any value rand.Intn returns is below the bound. -/
theorem intn_lt (n : Nat) (vs : List Nat) (i : Nat) (h : intn n vs = some i) :
    i < n := by
  unfold intn at h
  split at h
  · exact absurd h (by simp)
  · rename_i hn0
    split at h
    · simp only [int31n, Option.map_eq_some'] at h
      obtain ⟨v, _, rfl⟩ := h
      exact int31nVal_lt n v (by omega)
    · simp only [int63n, Option.map_eq_some'] at h
      obtain ⟨v, _, rfl⟩ := h
      exact int63nVal_lt n v (by omega)

/-- If the stream holds an accepted raw output, rand.Intn succeeds with an
in-range value (the case of a bound that fits Int31n). -/
theorem intn_some_of_accept (n : Nat) (vs : List Nat) (hn : 0 < n)
    (hn31 : n ≤ 2 ^ 31 - 1) (h : ∃ v ∈ vs, int31nAccept n v = true) :
    ∃ i, intn n vs = some i ∧ i < n := by
  have hs : (vs.find? (int31nAccept n)).isSome := by
    rw [List.find?_isSome]
    obtain ⟨v, hv, ha⟩ := h
    exact ⟨v, hv, ha⟩
  obtain ⟨v, hv⟩ := Option.isSome_iff_exists.mp hs
  refine ⟨int31nVal n v, ?_, int31nVal_lt n v hn⟩
  unfold intn
  rw [if_neg (by omega), if_pos hn31]
  unfold int31n
  rw [hv]
  rfl

/-- Inversion of a successful handler run: some in-range index was drawn and
the response is the JSON content type with the interpolated body of the
indexed catalog entry. -/
theorem quoteHandler_inv (req : Request) (now : Int) (vs : List Nat)
    (resp : Response) (h : quoteHandler req now vs = some resp) :
    ∃ i q, intn quotes.length vs = some i ∧ quotes[i]? = some q ∧
      resp = ⟨"application/json", fmtBody q⟩ := by
  unfold quoteHandler quoteHandlerCore at h
  match hi : intn quotes.length vs with
  | none => simp only [hi] at h; simp at h
  | some i =>
    simp only [hi] at h
    match hq : quotes[i]? with
    | none => simp only [hq] at h; simp at h
    | some q =>
      simp only [hq] at h
      exact ⟨i, q, rfl, hq, (Option.some_inj.mp h).symm⟩

/-- Each of the five catalog strings, spliced raw into the format string,
yields a body the JSON yardstick decodes back to exactly that string. -/
theorem quotes_bodies_parse : ∀ q ∈ quotes, parseQuoteObj (fmtBody q) = some q := by
  decide

/-- Each of the five catalog strings passes the escaping-safety check. -/
theorem quotes_safe : ∀ q ∈ quotes, jsonSafe q = true := by decide

/-! ## Claim theorems -/

/-- C1: for every request dispatched to the handler (and any raw generator
stream from which the rejection loop can exit), the response carries the
JSON content type and a body that decodes as a JSON object with exactly one
key, quote, whose string value is an entry of the configured catalog. -/
theorem response_is_json_quote_from_catalog (req : Request) (now : Int)
    (vs : List Nat) (h : ∃ v ∈ vs, int31nAccept quotes.length v = true) :
    ∃ resp q, quoteHandler req now vs = some resp ∧
      resp.contentType = "application/json" ∧
      parseQuoteObj resp.body = some q ∧ q ∈ quotes := by
  obtain ⟨i, hi, hlt⟩ :=
    intn_some_of_accept quotes.length vs (by decide) (by decide) h
  refine ⟨⟨"application/json", fmtBody quotes[i]⟩, quotes[i], ?_, rfl, ?_, ?_⟩
  · unfold quoteHandler quoteHandlerCore
    simp only [hi, List.getElem?_eq_getElem hlt]
  · exact quotes_bodies_parse _ (List.getElem?_mem (List.getElem?_eq_getElem hlt))
  · exact List.getElem?_mem (List.getElem?_eq_getElem hlt)

/-- Witness for C1 at a concrete request, clock and stream. -/
theorem response_is_json_quote_from_catalog_witness :
    ∃ resp q, quoteHandler sampleRequest 0 [0] = some resp ∧
      resp.contentType = "application/json" ∧
      parseQuoteObj resp.body = some q ∧ q ∈ quotes :=
  response_is_json_quote_from_catalog sampleRequest 0 [0] ⟨0, by decide, by decide⟩

/-- C2: the code evaluated at a catalog whose entry holds a double quote: the
handler emits the raw interpolation of that entry, and that body is not
decodable as the required JSON object, refuting standard JSON escaping. -/
theorem unescaped_quote_breaks_json :
    (quoteHandlerCore ["He said \"hi\""] 0 [0]).map Response.body =
      some (fmtBody "He said \"hi\"") ∧
    parseQuoteObj (fmtBody "He said \"hi\"") = none := by
  exact ⟨by decide, by decide⟩

/-- C3: the code evaluated: the first generator operation of every handler
invocation is a rand.Seed with the current clock value, so the handler
reseeds on every request rather than the source being seeded once at
startup (mainStartup holds no seeding step at all). -/
theorem handler_reseeds_every_invocation (req : Request) (now : Int) :
    (quoteHandlerRandOps req now).head? = some (RandOp.seedOp now) ∧
      RandOp.seedOp now ∈ quoteHandlerRandOps req now := by
  exact ⟨rfl, by simp [quoteHandlerRandOps]⟩

/-- C5: with the non-empty hardcoded catalog, any index rand.Intn returns is
within bounds, the catalog indexing succeeds, and the handler's panic
branches are unreachable. -/
theorem selection_index_in_bounds (vs : List Nat) (i : Nat)
    (h : intn quotes.length vs = some i) :
    i < quotes.length ∧ (quotes[i]?).isSome = true ∧
      ∀ req now, quoteHandler req now vs ≠ none := by
  have hlt : i < quotes.length := intn_lt _ vs i h
  refine ⟨hlt, by simp [List.getElem?_eq_getElem hlt], ?_⟩
  intro req now hc
  unfold quoteHandler quoteHandlerCore at hc
  simp only [h, List.getElem?_eq_getElem hlt] at hc
  simp at hc

/-- Witness for C5 at a concrete stream and index. -/
theorem selection_index_in_bounds_witness :
    0 < quotes.length ∧ (quotes[0]?).isSome = true ∧
      ∀ req now, quoteHandler req now [0] ≠ none :=
  selection_index_in_bounds [0] 0 (by decide)

/-- C6: the catalog is the same fixed five-element list on every invocation,
it is never replaced or resized, and every successful response's body is the
formatting of one of its entries. -/
theorem catalog_fixed_and_immutable (r1 r2 : Request) (n1 n2 : Int) :
    catalogOf r1 n1 = catalogOf r2 n2 ∧ catalogOf r1 n1 = quotes ∧
      quotes.length = 5 ∧
      ∀ vs resp, quoteHandler r1 n1 vs = some resp →
        ∃ q, q ∈ catalogOf r1 n1 ∧ resp.body = fmtBody q := by
  refine ⟨rfl, rfl, rfl, ?_⟩
  intro vs resp h
  obtain ⟨i, q, _, hq, rfl⟩ := quoteHandler_inv r1 n1 vs resp h
  exact ⟨q, List.getElem?_mem hq, rfl⟩

/-- Witness for C6 at concrete requests, clocks, stream and response. -/
theorem catalog_fixed_and_immutable_witness :
    ∃ q, q ∈ catalogOf sampleRequest 0 ∧
      fmtBody "The only way to do great work is to love what you do. - Steve Jobs"
        = fmtBody q :=
  (catalog_fixed_and_immutable sampleRequest sampleRequest 0 0).2.2.2 [0]
    ⟨"application/json",
     fmtBody "The only way to do great work is to love what you do. - Steve Jobs"⟩
    (by decide)

/-- C7: two-run noninterference in the request: with the random source in
the same state (same reseed clock value and same raw stream), any two
requests, whatever their method, path, headers and body, produce identical
responses and identical generator operations up to the clock. -/
theorem handler_ignores_request (r1 r2 : Request) (now : Int) (vs : List Nat) :
    quoteHandler r1 now vs = quoteHandler r2 now vs ∧
      quoteHandlerRandOps r1 now = quoteHandlerRandOps r2 now :=
  ⟨rfl, rfl⟩

/-- C8 counterexample: with an empty catalog the modeled process still
reaches the serving step, because main validates no catalog, and the
selection then panics on an actual request: the failure is per-request, not
a refusal to start. -/
theorem empty_catalog_still_serves :
    StartupStep.listenAndServe 8080 ∈ mainStartupOf [] ∧
      quoteHandlerCore [] 0 [0] = none := by
  exact ⟨by decide, by decide⟩

/-- C8 amended: the hardcoded catalog is non-empty and then no per-request
error path exists; but startup reaches the serving step for every catalog,
the empty one included, because main performs no catalog validation. -/
theorem nonempty_no_error_but_startup_unvalidated (catalog : List String)
    (req : Request) (now : Int) (vs : List Nat)
    (h : ∃ v ∈ vs, int31nAccept quotes.length v = true) :
    quotes ≠ [] ∧ quoteHandler req now vs ≠ none ∧
      StartupStep.listenAndServe 8080 ∈ mainStartupOf catalog := by
  obtain ⟨i, hi, hlt⟩ :=
    intn_some_of_accept quotes.length vs (by decide) (by decide) h
  refine ⟨by decide, ?_, by simp [mainStartupOf, mainStartup]⟩
  intro hc
  unfold quoteHandler quoteHandlerCore at hc
  simp only [hi, List.getElem?_eq_getElem hlt] at hc
  simp at hc

/-- Witness for the amended C8 at a concrete catalog, request and stream. -/
theorem nonempty_no_error_but_startup_unvalidated_witness :
    quotes ≠ [] ∧ quoteHandler sampleRequest 0 [0] ≠ none ∧
      StartupStep.listenAndServe 8080 ∈ mainStartupOf [] :=
  nonempty_no_error_but_startup_unvalidated [] sampleRequest 0 [0]
    ⟨0, by decide, by decide⟩

/-- C10: every hardcoded catalog string is free of double quotes, backslashes
and control characters, so even through the raw format-string interpolation
every body this program can actually produce decodes as the required JSON
object with its value in the catalog. -/
theorem catalog_strings_safe_so_bodies_valid :
    (∀ q ∈ quotes, jsonSafe q = true) ∧
      ∀ req now vs resp, quoteHandler req now vs = some resp →
        ∃ q, q ∈ quotes ∧ parseQuoteObj resp.body = some q := by
  refine ⟨quotes_safe, ?_⟩
  intro req now vs resp h
  obtain ⟨i, q, _, hq, rfl⟩ := quoteHandler_inv req now vs resp h
  exact ⟨q, List.getElem?_mem hq, quotes_bodies_parse q (List.getElem?_mem hq)⟩

/-- Witness for C10 at a concrete request, stream and response. -/
theorem catalog_strings_safe_so_bodies_valid_witness :
    ∃ q, q ∈ quotes ∧
      parseQuoteObj (fmtBody
        "The only way to do great work is to love what you do. - Steve Jobs")
        = some q :=
  catalog_strings_safe_so_bodies_valid.2 sampleRequest 0 [0]
    ⟨"application/json",
     fmtBody "The only way to do great work is to love what you do. - Steve Jobs"⟩
    (by decide)

/-! ## Uniformity of the selection (C4) -/

/-- Counting lemma: below a multiple of n, each residue class modulo n hits
exactly the cofactor many values. -/
theorem card_filter_mod (n K i : Nat) (hn : 0 < n) (hi : i < n) :
    ((Finset.range (n * K)).filter (fun v => v % n = i)).card = K := by
  have hb : ((Finset.range (n * K)).filter (fun v => v % n = i)).card =
      (Finset.range K).card := by
    apply Finset.card_nbij' (fun v => v / n) (fun q => n * q + i)
    · intro a ha
      simp only [Finset.mem_filter, Finset.mem_range] at ha
      simp only [Finset.mem_range]
      have h1 : a < K * n := by
        have := ha.1
        rw [Nat.mul_comm] at this
        exact this
      exact (Nat.div_lt_iff_lt_mul hn).mpr h1
    · intro q hq
      simp only [Finset.mem_range] at hq
      simp only [Finset.mem_filter, Finset.mem_range]
      constructor
      · have hms : n * (q + 1) = n * q + n := by ring
        have h2 : n * (q + 1) ≤ n * K := Nat.mul_le_mul_left n (by omega)
        omega
      · rw [Nat.mul_add_mod]
        exact Nat.mod_eq_of_lt hi
    · intro a ha
      simp only [Finset.mem_filter, Finset.mem_range] at ha
      rw [← ha.2]
      exact Nat.div_add_mod a n
    · intro q hq
      rw [Nat.mul_add_div hn, Nat.div_eq_of_lt hi]
      omega
  rw [hb, Finset.card_range]

theorem two_pow_succ_eq (k : Nat) : 2 ^ (k + 1) = 2 ^ k * 2 := Nat.pow_succ 2 k

/-- A positive n whose bitwise and with n - 1 vanishes is exactly the power
of two at its log2. -/
theorem pow2_of_mask (n : Nat) (hn : 0 < n) (h : n &&& (n - 1) = 0) :
    n = 2 ^ n.log2 := by
  by_contra hne
  have h1 : 2 ^ n.log2 ≤ n := Nat.log2_self_le (by omega)
  have h2 : n < 2 ^ (n.log2 + 1) := Nat.lt_log2_self
  have hs : 2 ^ (n.log2 + 1) = 2 ^ n.log2 * 2 := two_pow_succ_eq n.log2
  have hd1 : n / 2 ^ n.log2 = 1 := Nat.div_eq_of_lt_le (by omega) (by omega)
  have hd2 : (n - 1) / 2 ^ n.log2 = 1 := Nat.div_eq_of_lt_le (by omega) (by omega)
  have hb1 : n.testBit n.log2 = true := by
    rw [Nat.testBit_to_div_mod, hd1]
    rfl
  have hb2 : (n - 1).testBit n.log2 = true := by
    rw [Nat.testBit_to_div_mod, hd2]
    rfl
  have hb : (n &&& (n - 1)).testBit n.log2 = true := by
    rw [Nat.testBit_and, hb1, hb2]
    rfl
  rw [h, Nat.zero_testBit] at hb
  exact Bool.noConfusion hb

/-- When the power-of-two mask test passes, Int31n's masking is reduction
modulo the bound. -/
theorem mask_val_eq_mod (n v : Nat) (hn : 0 < n) (h : isPow2Mask n = true) :
    v &&& (n - 1) = v % n := by
  have hp : n = 2 ^ n.log2 := pow2_of_mask n hn (by simpa [isPow2Mask] using h)
  calc v &&& (n - 1) = v &&& (2 ^ n.log2 - 1) := by rw [← hp]
    _ = v % 2 ^ n.log2 := Nat.and_pow_two_sub_one_eq_mod v n.log2
    _ = v % n := by rw [← hp]

/-- C4: with the raw Int31 draw modeled as uniform on its full range, the
index Int31n derives, conditioned on the rejection loop's acceptance, is
uniform: for every bound n that fits in an int32 and every index i below it,
n times the number of raw draws that are accepted and select i equals the
total number of accepted raw draws, i.e. each index has probability exactly
1/n among accepted draws. Instantiated by the handler at n = 5, the catalog
size, so each catalog entry is selected with probability 1/5. -/
theorem int31n_uniform (n i : Nat) (hn : 0 < n) (hn31 : n < 2 ^ 31)
    (hi : i < n) :
    n * ((Finset.range (2 ^ 31)).filter
        (fun v => int31nAccept n v = true ∧ int31nVal n v = i)).card =
      ((Finset.range (2 ^ 31)).filter (fun v => int31nAccept n v = true)).card := by
  by_cases hp : isPow2Mask n = true
  · obtain ⟨k, hk31, rfl⟩ : ∃ k, k < 31 ∧ n = 2 ^ k :=
      ⟨n.log2, (Nat.log2_lt (by omega)).mpr hn31,
        pow2_of_mask n hn (by simpa [isPow2Mask] using hp)⟩
    have hpow : 2 ^ k * 2 ^ (31 - k) = 2 ^ 31 := by
      rw [← Nat.pow_add]
      congr 1
      omega
    have hacc : ∀ v, int31nAccept (2 ^ k) v = true := fun v => by
      simp [int31nAccept, hp]
    have hval : ∀ v, int31nVal (2 ^ k) v = v % 2 ^ k := fun v => by
      simp only [int31nVal, hp, if_true]
      exact mask_val_eq_mod (2 ^ k) v hn hp
    have hL : ((Finset.range (2 ^ 31)).filter
        (fun v => int31nAccept (2 ^ k) v = true ∧ int31nVal (2 ^ k) v = i)) =
        ((Finset.range (2 ^ k * 2 ^ (31 - k))).filter (fun v => v % 2 ^ k = i)) := by
      ext v
      simp [hacc, hval, hpow]
    have hR : ((Finset.range (2 ^ 31)).filter
        (fun v => int31nAccept (2 ^ k) v = true)) = Finset.range (2 ^ 31) := by
      apply Finset.filter_true_of_mem
      intro v _
      exact hacc v
    rw [hL, hR, card_filter_mod (2 ^ k) (2 ^ (31 - k)) i hn hi,
      Finset.card_range, hpow]
  · have hacc : ∀ v, int31nAccept n v = decide (v ≤ int31nMaxAcc n) := fun v => by
      simp [int31nAccept, hp]
    have hval : ∀ v, int31nVal n v = v % n := fun v => by simp [int31nVal, hp]
    have hr : 2 ^ 31 % n < n := Nat.mod_lt _ hn
    have hdm : n * (2 ^ 31 / n) + 2 ^ 31 % n = 2 ^ 31 := Nat.div_add_mod _ n
    have hL : ((Finset.range (2 ^ 31)).filter
        (fun v => int31nAccept n v = true ∧ int31nVal n v = i)) =
        ((Finset.range (n * (2 ^ 31 / n))).filter (fun v => v % n = i)) := by
      ext v
      simp only [Finset.mem_filter, Finset.mem_range, hacc, hval,
        decide_eq_true_eq, int31nMaxAcc]
      constructor
      · rintro ⟨hv, hb, hc⟩
        exact ⟨by omega, hc⟩
      · rintro ⟨hd, hc⟩
        exact ⟨by omega, by omega, hc⟩
    have hR : ((Finset.range (2 ^ 31)).filter
        (fun v => int31nAccept n v = true)) = Finset.range (n * (2 ^ 31 / n)) := by
      ext v
      simp only [Finset.mem_filter, Finset.mem_range, hacc,
        decide_eq_true_eq, int31nMaxAcc]
      omega
    rw [hL, hR, card_filter_mod n (2 ^ 31 / n) i hn hi, Finset.card_range]

/-- Witness for C4 at the handler's catalog size and a concrete index. -/
theorem int31n_uniform_witness :
    quotes.length * ((Finset.range (2 ^ 31)).filter
        (fun v => int31nAccept quotes.length v = true ∧
          int31nVal quotes.length v = 2)).card =
      ((Finset.range (2 ^ 31)).filter
        (fun v => int31nAccept quotes.length v = true)).card :=
  int31n_uniform quotes.length 2 (by decide) (by decide) (by decide)

/-! ## Concurrency (C9) -/

/-- Steps of request j never touch another request's state: the only
per-request write a step performs is to its own entry (its own
ResponseWriter); the shared generator is the sole shared resource. -/
theorem concStep_other_buffer (g : Int → Nat → Nat) (s : ConcState)
    (j k : Nat) (h : j ≠ k) :
    ((concStep g s j).procs)[k]? = s.procs[k]? := by
  unfold concStep
  match hpj : s.procs[j]? with
  | none => simp [hpj]
  | some (t0, ReqPhase.start) => simp [hpj, List.getElem?_set_ne h]
  | some (t0, ReqPhase.drawing) =>
    simp only [hpj]
    split
    · simp [List.getElem?_set_ne h]
    · rfl
  | some (t0, ReqPhase.finished b0) => simp [hpj]

/-- One atomic step preserves the invariant that every finished buffer holds
the formatted body of a catalog entry. -/
theorem concStep_preserves (g : Int → Nat → Nat) (s : ConcState) (i : Nat)
    (hs : ∀ t b, (t, ReqPhase.finished b) ∈ s.procs →
      ∃ q, q ∈ quotes ∧ b = fmtBody q) :
    ∀ t b, (t, ReqPhase.finished b) ∈ (concStep g s i).procs →
      ∃ q, q ∈ quotes ∧ b = fmtBody q := by
  intro t b hmem
  unfold concStep at hmem
  match hpi : s.procs[i]? with
  | none =>
    simp only [hpi] at hmem
    exact hs t b hmem
  | some (t0, ReqPhase.start) =>
    simp only [hpi] at hmem
    rcases List.mem_or_eq_of_mem_set hmem with hold | hnew
    · exact hs t b hold
    · exact absurd (congrArg Prod.snd hnew) (by simp)
  | some (t0, ReqPhase.drawing) =>
    simp only [hpi] at hmem
    split at hmem
    · rcases List.mem_or_eq_of_mem_set hmem with hold | hnew
      · exact hs t b hold
      · have hb : b = fmtBody (quotes.getD
            (int31nVal quotes.length (g s.gen.seedVal s.gen.pos)) "") := by
          have := congrArg Prod.snd hnew
          simpa using this
        have hj : int31nVal quotes.length (g s.gen.seedVal s.gen.pos) <
            quotes.length :=
          int31nVal_lt quotes.length _ (by decide)
        refine ⟨quotes.getD
            (int31nVal quotes.length (g s.gen.seedVal s.gen.pos)) "", ?_, hb⟩
        rw [List.getD_eq_getElem?_getD, List.getElem?_eq_getElem hj]
        exact List.getElem_mem hj
    · exact hs t b hmem
  | some (t0, ReqPhase.finished b0) =>
    simp only [hpi] at hmem
    exact hs t b hmem

/-- Running any schedule preserves the finished-buffer invariant. -/
theorem concRun_preserves (g : Int → Nat → Nat) (sched : List Nat)
    (s : ConcState)
    (hs : ∀ t b, (t, ReqPhase.finished b) ∈ s.procs →
      ∃ q, q ∈ quotes ∧ b = fmtBody q) :
    ∀ t b, (t, ReqPhase.finished b) ∈ (concRun g s sched).procs →
      ∃ q, q ∈ quotes ∧ b = fmtBody q := by
  induction sched generalizing s with
  | nil => exact hs
  | cons i rest ih => exact ih (concStep g s i) (concStep_preserves g s i hs)

/-- In the initial state no request has finished. -/
theorem concInit_invariant (times : List Int) :
    ∀ t b, (t, ReqPhase.finished b) ∈ (concInit times).procs →
      ∃ q, q ∈ quotes ∧ b = fmtBody q := by
  intro t b hmem
  simp only [concInit, List.mem_map] at hmem
  obtain ⟨t1, _, heq⟩ := hmem
  exact absurd (congrArg Prod.snd heq) (by simp)

/-- C9: for every batch of concurrent requests and every interleaving of
their atomic operations on the shared generator (each single operation is
atomic: after the first rand.Seed the package-level source of math/rand is a
mutex-guarded lockedSource), every request that has completed holds in its
own buffer one complete, well-formed response: the formatting of a catalog
entry, decodable as the required JSON object; and no step ever writes to
another request's buffer, so no two responses can interleave into one body. -/
theorem concurrent_responses_wellformed (g : Int → Nat → Nat)
    (times : List Int) (sched : List Nat) (i : Nat) (t : Int) (b : String)
    (h : ((concRun g (concInit times) sched).procs)[i]? =
      some (t, ReqPhase.finished b)) :
    (∃ q, q ∈ quotes ∧ b = fmtBody q ∧ parseQuoteObj b = some q) ∧
      ∀ (g2 : Int → Nat → Nat) (s : ConcState) (j k : Nat), j ≠ k →
        ((concStep g2 s j).procs)[k]? = s.procs[k]? := by
  constructor
  · have hmem : (t, ReqPhase.finished b) ∈ (concRun g (concInit times) sched).procs :=
      List.getElem?_mem h
    obtain ⟨q, hq, hb⟩ :=
      concRun_preserves g sched (concInit times) (concInit_invariant times) t b hmem
    exact ⟨q, hq, hb, hb ▸ quotes_bodies_parse q hq⟩
  · intro g2 s j k hjk
    exact concStep_other_buffer g2 s j k hjk

/-- Witness for C9: two atomic steps of a single request complete it with the
first catalog entry's body. -/
theorem concurrent_responses_wellformed_witness :
    (∃ q, q ∈ quotes ∧
      fmtBody "The only way to do great work is to love what you do. - Steve Jobs"
        = fmtBody q ∧
      parseQuoteObj (fmtBody
        "The only way to do great work is to love what you do. - Steve Jobs")
        = some q) ∧
      ∀ (g2 : Int → Nat → Nat) (s : ConcState) (j k : Nat), j ≠ k →
        ((concStep g2 s j).procs)[k]? = s.procs[k]? :=
  concurrent_responses_wellformed (fun _ _ => 0) [0] [0, 0] 0 0
    (fmtBody "The only way to do great work is to love what you do. - Steve Jobs")
    (by decide)

end QuoteApi
